import Mathlib

/-!
# Verification of the gorm callback pipeline engine (`callbacks.go`)

This file gives a shallow embedding of the callback registry, ordering
resolver and execution engine from `callbacks.go`, and proves or refutes
the specification claims about them.

Modelling conventions:
* A Go `*callback` is a `Callback` record; handlers (`func(*DB)`) are
  identified by `Nat` tags for ordering claims, and by state transformers
  `ExecDB → ExecDB` for the execution-engine claims.
* The `match func(*DB) bool` predicate is modelled by two booleans:
  whether a predicate is present (`matchPresent`, i.e. `match != nil`)
  and what it evaluates to against the current db handle (`matchResult`),
  since `compile` evaluates it exactly once per compile pass.
* Go slices of pointers: `sortCallbacks` mutates the callbacks it is
  given through pointers shared with the processor.  We model the
  callback slice as explicit state (`SortState`) and identify a callback
  by its index in that slice; every field read re-reads the current
  state, as a pointer dereference would.
* The recursive `sortCallback` closure has no termination guarantee in
  the source; it is embedded with an explicit fuel parameter.  A result
  of `outOfFuel` for every fuel value proves that the Go recursion never
  returns on that input.
* `getRIndex` returns a Go `int` with `-1` as the "not found" sentinel;
  it is embedded with `Int` and the same sentinel.
-/

namespace Gorm

/-- One entry of `processor.callbacks`: a registration event
(`callback` struct in the source).  `handler` is an opaque tag. -/
structure Callback where
  name : String
  before : String
  after : String
  remove : Bool
  replace : Bool
  matchPresent : Bool
  matchResult : Bool
  handler : Nat
deriving DecidableEq, Repr

/-- Zero value used for (unreachable) out-of-range slice reads. -/
def dummyCallback : Callback :=
  { name := "", before := "", after := "", remove := false, replace := false,
    matchPresent := false, matchResult := false, handler := 0 }

/-- Function `getRIndex`: index of the last occurrence of `str` in `strs`, `-1` if
absent (the Go loop runs from the end of the slice). -/
def getRIndex (strs : List String) (str : String) : Int :=
  match strs with
  | [] => -1
  | s :: rest =>
    let r := getRIndex rest str
    if r ≠ -1 then r + 1 else if s = str then 0 else -1

/-- Slice read `cs[i]` for an index produced by `getRIndex` (always in
range at every reachable use). -/
def csGet (cs : List Callback) (i : Int) : Callback :=
  cs.getD i.toNat dummyCallback

/-- The mutable state of one `sortCallbacks` run: the shared callback
slice (mutated through pointers in Go) and the `sorted` name sequence. -/
structure SortState where
  cs : List Callback
  sorted : List String
deriving DecidableEq, Repr

/-- Result of one (possibly recursive) `sortCallback` call.  `conflict`
carries the error operands of `fmt.Errorf("conflicting callback %v with
before %v", ...)` and the state at the time of the error (the Go slice
mutations persist past an error return). -/
inductive SortRes where
  | ok (st : SortState)
  | conflict (a b : String) (st : SortState)
  | outOfFuel
deriving DecidableEq, Repr

/-- Pointer write `cs[i].after = v` into the shared slice. -/
def setAfterAt (cs : List Callback) (i : Nat) (v : String) : List Callback :=
  cs.set i { csGet cs (Int.ofNat i) with after := v }

/-- Pointer write `cs[i].before = v` into the shared slice. -/
def setBeforeAt (cs : List Callback) (i : Nat) (v : String) : List Callback :=
  cs.set i { csGet cs (Int.ofNat i) with before := v }

/-- Insertion `append(sorted[:i], append([]string{x}, sorted[i:]...)...)`
of `x` at position `i`. -/
def insertAt (l : List String) (i : Int) (x : String) : List String :=
  l.take i.toNat ++ [x] ++ l.drop i.toNat

/-- Lines 208–220 of the source: the `if c.before != ""` branch of
`sortCallback`.  Note the propagation `cs[idx].after = c.name` is
unconditional. -/
def beforeStep (names : List String) (st : SortState) (ci : Nat) : SortRes :=
  let c := csGet st.cs (Int.ofNat ci)
  if c.before ≠ "" then
    let sortedIdx := getRIndex st.sorted c.before
    if sortedIdx ≠ -1 then
      let curIdx := getRIndex st.sorted c.name
      if curIdx = -1 then
        .ok { st with sorted := insertAt st.sorted sortedIdx c.name }
      else if curIdx > sortedIdx then
        .conflict c.name c.before st
      else .ok st
    else
      let idx := getRIndex names c.before
      if idx ≠ -1 then
        .ok { st with cs := setAfterAt st.cs idx.toNat c.name }
      else .ok st
  else .ok st

/-- Lines 223–229: the `after` branch when the `after` target is already
sorted. -/
def afterSortedStep (st : SortState) (ci : Nat) (sortedIdx : Int) : SortRes :=
  let c := csGet st.cs (Int.ofNat ci)
  let curIdx := getRIndex st.sorted c.name
  if curIdx = -1 then
    .ok { st with sorted := st.sorted ++ [c.name] }
  else if curIdx < sortedIdx then
    .conflict c.name c.after st
  else .ok st

/-- Lines 249–252: append the current callback's name if it has not been
placed yet. -/
def finishStep (st : SortState) (ci : Nat) : SortRes :=
  let c := csGet st.cs (Int.ofNat ci)
  if getRIndex st.sorted c.name = -1 then
    .ok { st with sorted := st.sorted ++ [c.name] }
  else .ok st

/-- Error propagation: Go's `if err := step(); err != nil { return err }`
pattern — continue with the new state on success, return the error (or
fuel exhaustion) unchanged otherwise. -/
def andThen (r : SortRes) (f : SortState → SortRes) : SortRes :=
  match r with
  | .ok st => f st
  | r => r

/-- Lines 222–252 of `sortCallback`: the `after` branch followed by the
final placement, parameterized by the recursive call `rec` (which the
fueled `sortCallbackF` instantiates with itself at one less fuel). -/
def afterPhase (names : List String) (rec : SortState → Nat → SortRes)
    (st1 : SortState) (ci : Nat) : SortRes :=
  let c := csGet st1.cs (Int.ofNat ci)
  if c.after ≠ "" then
    let sortedIdx := getRIndex st1.sorted c.after
    if sortedIdx ≠ -1 then
      andThen (afterSortedStep st1 ci sortedIdx) fun st2 => finishStep st2 ci
    else
      let idx := getRIndex names c.after
      if idx ≠ -1 then
        -- `after := cs[idx]; if after.before == "" { after.before = c.name }`
        let st2 :=
          if (csGet st1.cs idx).before = "" then
            { st1 with cs := setBeforeAt st1.cs idx.toNat c.name }
          else st1
        andThen (rec st2 idx.toNat) fun st3 =>
          andThen (rec st3 ci) fun st4 => finishStep st4 ci
      else finishStep st1 ci
  else finishStep st1 ci

/-- The recursive `sortCallback` closure (lines 207–255), with fuel.
The callback being sorted is identified by its index `ci` in the shared
slice; every field read goes through the current state, as the Go
pointer reads do. -/
def sortCallbackF (names : List String) : Nat → SortState → Nat → SortRes
  | 0, _, _ => .outOfFuel
  | fuel + 1, st, ci =>
    andThen (beforeStep names st ci) fun st1 =>
      afterPhase names (sortCallbackF names fuel) st1 ci

/-- The driver loop `for _, c := range cs { if err = sortCallback(c); ... }`
(lines 257–261), iterating the slice by index. -/
def sortLoopF (names : List String) (fuel : Nat) : SortState → List Nat → SortRes
  | st, [] => .ok st
  | st, i :: rest =>
    andThen (sortCallbackF names fuel st i) fun st' =>
      sortLoopF names fuel st' rest

/-- Lines 263–267: walk `sorted`, look each name up by last occurrence,
and emit the handler of every non-tombstoned declaration. -/
def buildFns (names : List String) (cs : List Callback) : List String → List Nat
  | [] => []
  | n :: rest =>
    let idx := getRIndex names n
    (if (csGet cs idx).remove = false then [(csGet cs idx).handler] else [])
      ++ buildFns names cs rest

/-- Overall result of `sortCallbacks`: the compiled handler list (or the
conflict error) together with the mutated callback slice. -/
inductive SortOutcome where
  | ok (fns : List Nat) (cs : List Callback)
  | conflict (a b : String) (cs : List Callback)
  | outOfFuel
deriving DecidableEq, Repr

/-- Function `sortCallbacks` (lines 193–270), with fuel for the inner recursion. -/
def sortCallbacksF (fuel : Nat) (cs : List Callback) : SortOutcome :=
  let names := cs.map (·.name)
  match sortLoopF names fuel { cs := cs, sorted := [] } (List.range cs.length) with
  | .ok st => .ok (buildFns names st.cs st.sorted) st.cs
  | .conflict a b st => .conflict a b st.cs
  | .outOfFuel => .outOfFuel

/-- The duplicate-registration warning loop (lines 199–205): the names
logged by `logger.Default.Warn("duplicated callback ...")`, in order. -/
def dupWarnGo (cs : List Callback) : List Callback → List String → List String
  | [], _ => []
  | c :: rest, names =>
    let idx := getRIndex names c.name
    (if idx > -1 ∧ c.replace = false ∧ c.remove = false ∧
        (csGet cs idx).remove = false then [c.name] else [])
      ++ dupWarnGo cs rest (names ++ [c.name])

/-- Warning names produced by one `sortCallbacks` run. -/
def duplicateWarnings (cs : List Callback) : List String :=
  dupWarnGo cs cs []

/-! ## The processor (registry) -/

/-- The `processor` struct: the declaration sequence and the cached
compiled handler list (`fns`).  The `db` back-reference is only consulted through the
`match` predicates, which are pre-evaluated in `Callback.matchResult`. -/
structure Processor where
  callbacks : List Callback
  fns : List Nat
deriving DecidableEq, Repr

/-- Result of `compile` (and of the mutating registration operations that
call it): the updated processor plus the returned error, or divergence of
the resolver. -/
inductive CompileResult where
  | done (p : Processor) (err : Option (String × String))
  | outOfFuel
deriving DecidableEq, Repr

/-- The filter of line 138: `callback.match == nil || callback.match(p.db)`. -/
def matchKeeps (c : Callback) : Bool :=
  !c.matchPresent || c.matchResult

/-- Method `processor.compile` (lines 135–147).  Exactly as in the source, the
match-filtered list is computed into a local (line 136–141) but the
resolver is invoked on the unfiltered `p.callbacks` (line 143).  On a
resolver error, the multiple assignment `p.fns, err = sortCallbacks(...)`
stores the resolver's `nil` result into `p.fns`, the error is logged and
returned. -/
def compileF (fuel : Nat) (p : Processor) : CompileResult :=
  let _filtered := p.callbacks.filter matchKeeps
  match sortCallbacksF fuel p.callbacks with
  | .ok fns cs' => .done { callbacks := cs', fns := fns } none
  | .conflict a b cs' => .done { callbacks := cs', fns := [] } (some (a, b))
  | .outOfFuel => .outOfFuel

/-- Modelled from the spec: the compile step §4.2 describes — "filters
declarations by their `match` predicate ... before handing the filtered
set to the resolver".  Used only to contrast with `compileF`. -/
def compileSpecModel (fuel : Nat) (p : Processor) : CompileResult :=
  let filtered := p.callbacks.filter matchKeeps
  match sortCallbacksF fuel filtered with
  | .ok fns _ => .done { callbacks := p.callbacks, fns := fns } none
  | .conflict a b _ => .done { callbacks := p.callbacks, fns := [] } (some (a, b))
  | .outOfFuel => .outOfFuel

/-- Append a declaration record and recompile: the common tail of
`callback.Register` / `Remove` / `Replace` (lines 159–181). -/
def appendCompile (fuel : Nat) (p : Processor) (cb : Callback) : CompileResult :=
  compileF fuel { p with callbacks := p.callbacks ++ [cb] }

/-- A plain `Register(name, fn)` declaration record. -/
def mkCallback (name : String) (h : Nat) : Callback :=
  { dummyCallback with name := name, handler := h }

/-- Method `processor.Register` (no constraints). -/
def registerOp (fuel : Nat) (p : Processor) (name : String) (h : Nat) :
    CompileResult :=
  appendCompile fuel p (mkCallback name h)

/-- A tombstone declaration record as appended by `Remove`. -/
def removeTomb (name : String) : Callback :=
  { dummyCallback with name := name, remove := true }

/-- Method `processor.Remove`: appends a tombstone (`c.remove = true`) and
recompiles (lines 166–172). -/
def removeOp (fuel : Nat) (p : Processor) (name : String) : CompileResult :=
  appendCompile fuel p (removeTomb name)

/-- Method `processor.Replace`: appends a replace-flagged declaration and
recompiles (lines 174–181). -/
def replaceOp (fuel : Nat) (p : Processor) (name : String) (h : Nat) :
    CompileResult :=
  appendCompile fuel p { dummyCallback with name := name, replace := true, handler := h }

/-- The scan of `processor.Get` (lines 102–109): newest-first search for
a live (non-tombstone) declaration with the given name. -/
def getCb : List Callback → String → Option Nat
  | [], _ => none
  | c :: rest, name =>
    match getCb rest name with
    | some h => some h
    | none =>
      if c.name = name ∧ c.remove = false then some c.handler else none

/-- Method `processor.Get`. -/
def Get (p : Processor) (name : String) : Option Nat :=
  getCb p.callbacks name

/-! ## The execution engine (`processor.Execute`) -/

/-- A schema-parse error returned by the `stmt.Parse` collaborator:
an identity tag plus whether `errors.Is(err, schema.ErrUnsupportedDataType)`
holds for it. -/
structure ParseErr where
  errId : Nat
  unsupported : Bool
deriving DecidableEq, Repr

/-- The per-call `Statement`.  `Model`/`Dest` are `interface{}` values
modelled as optional tags (`none` = Go `nil`).  `parseRes` is the
external schema collaborator: the error `stmt.Parse(v)` reports for a
model value `v` (`none` = success); the metadata it populates is outside
this slice, and `table` is the value of `stmt.Table` at the point of the
error check. -/
structure ExecStmt where
  model : Option Nat
  dest : Option Nat
  table : String
  parseRes : Nat → Option ParseErr
  reflectValueSet : Bool
  stmtError : Option Nat
  rowsAffected : Int
  sql : String

/-- The caller-visible `*DB` state threaded through `Execute`.
`addedErrors` records every `db.AddError` call (the call's error
accumulator); `trace` records every `Logger.Trace` emission as
(rendered SQL, rows affected, error). -/
structure ExecDB where
  stmt : Option ExecStmt
  dbError : Option Nat
  rowsAffected : Int
  addedErrors : List ParseErr
  trace : List (String × Int × Option Nat)

/-- Lines 75–86 of `Execute`: model defaulting, the conditional
schema-parse error surfacing, and the `ReflectValue` normalization. -/
def executePrepare (db : ExecDB) : ExecDB :=
  match db.stmt with
  | none => db
  | some stmt0 =>
    let stmt1 := if stmt0.model = none then { stmt0 with model := stmt0.dest } else stmt0
    let db1 := { db with stmt := some stmt1 }
    let db2 :=
      match stmt1.model with
      | none => db1
      | some m =>
        match stmt1.parseRes m with
        | none => db1
        | some e =>
          -- `err != nil && (!errors.Is(err, ErrUnsupportedDataType) || stmt.Table == "")`
          if e.unsupported = false ∨ stmt1.table = "" then
            { db1 with addedErrors := db1.addedErrors ++ [e] }
          else db1
    { db2 with stmt := some { stmt1 with reflectValueSet := true } }

/-- Lines 88–90: run every compiled handler in order on the shared call
context; the engine never aborts mid-chain. -/
def applyFns (fns : List (ExecDB → ExecDB)) (db : ExecDB) : ExecDB :=
  fns.foldl (fun d f => f d) db

/-- Lines 92–99: copy the statement's accumulated error and
rows-affected count up to the caller-visible result and emit one trace
record. -/
def executeFinish (db : ExecDB) : ExecDB :=
  match db.stmt with
  | none => db
  | some stmt =>
    { db with
      dbError := stmt.stmtError,
      rowsAffected := stmt.rowsAffected,
      trace := db.trace ++ [(stmt.sql, stmt.rowsAffected, stmt.stmtError)] }

/-- Method `processor.Execute` (lines 73–100), with the compiled handler list
given as state transformers. -/
def Execute (fns : List (ExecDB → ExecDB)) (db : ExecDB) : ExecDB :=
  executeFinish (applyFns fns (executePrepare db))

/-! ## Observation helpers -/

/-- Compiled handler list of a sort outcome, if the run succeeded. -/
def outcomeFns : SortOutcome → Option (List Nat)
  | .ok fns _ => some fns
  | _ => none

/-- Final callback slice of a sort outcome, if the run terminated. -/
def outcomeCs : SortOutcome → Option (List Callback)
  | .ok _ cs => some cs
  | .conflict _ _ cs => some cs
  | .outOfFuel => none

/-- State carried by a terminating `sortCallback` result. -/
def resState : SortRes → Option SortState
  | .ok st => some st
  | .conflict _ _ st => some st
  | .outOfFuel => none

/-- The name/tombstone/handler fields of the slice: exactly the fields
`sortCallbacks` never writes (the sort only rewrites `before`/`after`). -/
def liveView (cs : List Callback) : List (String × Bool × Nat) :=
  cs.map fun c => (c.name, c.remove, c.handler)

/-! ## Concrete declaration sequences used by the claims -/

/-- Names slice for the two-callback cycles below. -/
def cycNames : List String := ["a", "b"]

/-- Callback `a` in its fully rewritten cyclic form. -/
def cycA : Callback := { dummyCallback with name := "a", before := "b", after := "b", handler := 1 }

/-- Callback `b` in its fully rewritten cyclic form. -/
def cycB : Callback := { dummyCallback with name := "b", before := "a", after := "a", handler := 2 }

/-- The fixpoint state both cyclic inputs reach: every `before`/`after`
rewrite from here on is the identity, and `sorted` never grows. -/
def cycStar : SortState := { cs := [cycA, cycB], sorted := [] }

/-- Declaration `a` of the mutual-`after` cycle (`a` after `b`). -/
def c1a : Callback := { dummyCallback with name := "a", after := "b", handler := 1 }

/-- Declaration `b` of the mutual-`after` cycle (`b` after `a`). -/
def c1b : Callback := { dummyCallback with name := "b", after := "a", handler := 2 }

/-- The mutual-`after` cycle: `a` declares `after = "b"` and `b` declares
`after = "a"`. -/
def c1cs : List Callback := [c1a, c1b]

/-- Initial sort state for `c1cs`. -/
def c1st0 : SortState := { cs := c1cs, sorted := [] }

/-- State of the `c1cs` run after the propagation `b.before = "a"`. -/
def c1st1 : SortState := { cs := [c1a, cycB], sorted := [] }

/-- Plain declaration `b` of the `c9cs` cycle. -/
def c9b : Callback := { dummyCallback with name := "b", handler := 2 }

/-- A cycle through a single constrained declaration: `a` declares both
`before = "b"` and `after = "b"`. -/
def c9cs : List Callback := [cycA, c9b]

/-- Initial sort state for `c9cs`. -/
def c9st0 : SortState := { cs := c9cs, sorted := [] }

/-- Processor holding the `c9cs` declarations. -/
def c9p : Processor := { callbacks := c9cs, fns := [] }

/-- Declaration `a` before `b` (for the constraint-loss scenario). -/
def c4a : Callback := { dummyCallback with name := "a", before := "b", handler := 1 }

/-- Declaration `b` after `c` (the constraint that gets overwritten). -/
def c4b : Callback := { dummyCallback with name := "b", after := "c", handler := 2 }

/-- Plain declaration `c`. -/
def c4c : Callback := { dummyCallback with name := "c", handler := 3 }

/-- Sequence on which the resolver succeeds yet violates the declared
constraint `b after c`: sorting `a` rewrites `b.after` from `"c"` to
`"a"`, silently dropping `b`'s declared constraint. -/
def c4cs : List Callback := [c4a, c4b, c4c]

/-- A declaration whose `match` predicate is present and evaluates to
`false` against the current db handle. -/
def c2cb : Callback :=
  { dummyCallback with name := "m", matchPresent := true, matchResult := false, handler := 1 }

/-- Processor holding only the match-filtered-out declaration. -/
def c2p : Processor := { callbacks := [c2cb], fns := [] }

/-- Empty processor. -/
def c3p0 : Processor := { callbacks := [], fns := [] }

/-- Processor state after `Register("a", h1)` compiled successfully. -/
def c3p1 : Processor := { callbacks := [mkCallback "a" 1], fns := [1] }

/-- A builder registration `Before("a").After("a").Register("b", h2)`
whose constraints conflict. -/
def c3cb : Callback := { dummyCallback with name := "b", before := "a", after := "a", handler := 2 }

/-- The declaration sequence after the conflicting registration. -/
def c3cs : List Callback := [mkCallback "a" 1, c3cb]

/-- Processor after the first registration of name `a`. -/
def c6p1 : Processor := { callbacks := [mkCallback "a" 1], fns := [1] }

/-- Processor after the duplicate registration of name `a`: the compiled
list carries the newer handler. -/
def c6p2 : Processor := { callbacks := [mkCallback "a" 1, mkCallback "a" 2], fns := [2] }

/-- Declaration `x` before `y` (triggers the backward-edge rewrite). -/
def c7x : Callback := { dummyCallback with name := "x", before := "y", handler := 4 }

/-- Declaration `y` with an explicit `after = "z"` constraint. -/
def c7y : Callback := { dummyCallback with name := "y", after := "z", handler := 5 }

/-- Plain declaration `z`. -/
def c7z : Callback := { dummyCallback with name := "z", handler := 6 }

/-- Sequence in which `y` holds an explicit `after` constraint when the
rewrite for `x before y` fires. -/
def c7cs : List Callback := [c7x, c7y, c7z]

/-- Names slice of `c7cs`. -/
def c7names : List String := ["x", "y", "z"]

/-- Initial sort state for `c7cs`. -/
def c7st0 : SortState := { cs := c7cs, sorted := [] }

/-- The `c7cs` slice after the full sort: `y.after` was overwritten. -/
def c7final : List Callback := [c7x, { c7y with after := "x" }, c7z]

/-- Processor with one live registration of name `a`. -/
def c8p1 : Processor := { callbacks := [mkCallback "a" 1], fns := [1] }

/-- Processor state after `Remove("a")`: the tombstone is appended, the
compiled list is empty, and the original declaration is untouched. -/
def c8p2 : Processor := { callbacks := [mkCallback "a" 1, removeTomb "a"], fns := [] }

/-- A statement whose parse fails with a non-`unsupported` error while a
table name is already known. -/
def c5stmt : ExecStmt :=
  { model := some 0, dest := some 0, table := "users",
    parseRes := fun _ => some { errId := 7, unsupported := false },
    reflectValueSet := false, stmtError := none, rowsAffected := 0, sql := "" }

/-- Call context carrying `c5stmt`. -/
def c5db : ExecDB :=
  { stmt := some c5stmt, dbError := none, rowsAffected := 0, addedErrors := [], trace := [] }

/-- A statement whose parse fails with an `unsupported data type` error
while a table name is known (the one suppressed case). -/
def c5wstmt : ExecStmt :=
  { model := some 0, dest := some 0, table := "t",
    parseRes := fun _ => some { errId := 3, unsupported := true },
    reflectValueSet := false, stmtError := none, rowsAffected := 0, sql := "" }

/-- Call context carrying `c5wstmt`. -/
def c5wdb : ExecDB :=
  { stmt := some c5wstmt, dbError := none, rowsAffected := 0, addedErrors := [], trace := [] }

/-- Call context with a nil `Statement`. -/
def c10db : ExecDB :=
  { stmt := none, dbError := none, rowsAffected := 0, addedErrors := [], trace := [] }

/-- A sample handler observing and mutating the shared call context. -/
def c10f : ExecDB → ExecDB := fun d => { d with rowsAffected := d.rowsAffected + 1 }

/-! ## Invariants of the resolver

The sort rewrites only the `before`/`after` fields of the shared slice:
its `liveView` (names, tombstone flags, handlers) is preserved by every
step, hence by the whole run.  `Get` depends only on the `liveView`, so
registration mutations that merely recompile cannot change `Get`. -/

theorem liveView_setAfterAt (cs : List Callback) (i : Nat) (v : String) :
    liveView (setAfterAt cs i v) = liveView cs := by
  induction cs generalizing i with
  | nil => rfl
  | cons c rest ih =>
    cases i with
    | zero => rfl
    | succ n =>
      show liveView (c :: setAfterAt rest n v) = _
      simp only [liveView, List.map_cons] at ih ⊢
      rw [ih n]

theorem liveView_setBeforeAt (cs : List Callback) (i : Nat) (v : String) :
    liveView (setBeforeAt cs i v) = liveView cs := by
  induction cs generalizing i with
  | nil => rfl
  | cons c rest ih =>
    cases i with
    | zero => rfl
    | succ n =>
      show liveView (c :: setBeforeAt rest n v) = _
      simp only [liveView, List.map_cons] at ih ⊢
      rw [ih n]

theorem andThen_preserves (P : SortState → Prop) (r : SortRes)
    (f : SortState → SortRes) (st' : SortState)
    (hr : ∀ s, resState r = some s → P s)
    (hf : ∀ s1, r = .ok s1 → ∀ s, resState (f s1) = some s → P s)
    (h : resState (andThen r f) = some st') : P st' := by
  cases r with
  | ok s1 => exact hf s1 rfl st' h
  | conflict a b s => exact hr st' h
  | outOfFuel => simp [andThen, resState] at h

theorem beforeStep_liveView (names : List String) (st : SortState) (ci : Nat)
    (st' : SortState) (h : resState (beforeStep names st ci) = some st') :
    liveView st'.cs = liveView st.cs := by
  simp only [beforeStep] at h
  split_ifs at h <;>
    simp only [resState, Option.some.injEq] at h <;>
    (subst h; simp [liveView_setAfterAt])

theorem afterSortedStep_cs (st : SortState) (ci : Nat) (sortedIdx : Int)
    (st' : SortState) (h : resState (afterSortedStep st ci sortedIdx) = some st') :
    st'.cs = st.cs := by
  simp only [afterSortedStep] at h
  split_ifs at h <;> simp only [resState, Option.some.injEq] at h <;> subst h <;> rfl

theorem finishStep_cs (st : SortState) (ci : Nat)
    (st' : SortState) (h : resState (finishStep st ci) = some st') :
    st'.cs = st.cs := by
  simp only [finishStep] at h
  split_ifs at h <;> simp only [resState, Option.some.injEq] at h <;> subst h <;> rfl

theorem afterPhase_liveView (names : List String) (rec : SortState → Nat → SortRes)
    (hrec : ∀ s j s', resState (rec s j) = some s' → liveView s'.cs = liveView s.cs)
    (st1 : SortState) (ci : Nat) (st' : SortState)
    (h : resState (afterPhase names rec st1 ci) = some st') :
    liveView st'.cs = liveView st1.cs := by
  simp only [afterPhase] at h
  split_ifs at h with hafter hsorted hidx hguard
  · refine andThen_preserves (fun s => liveView s.cs = liveView st1.cs) _ _ st' ?_ ?_ h
    · intro s hs
      rw [afterSortedStep_cs st1 ci _ s hs]
    · intro s1 hok s hs
      rw [finishStep_cs s1 ci s hs,
        afterSortedStep_cs st1 ci _ s1 (by rw [hok]; rfl)]
  · refine andThen_preserves (fun s => liveView s.cs = liveView st1.cs) _ _ st' ?_ ?_ h
    · intro s hs
      rw [hrec _ _ s hs]
      exact liveView_setBeforeAt st1.cs _ _
    · intro s1 hok s hs
      have h1 : liveView s1.cs = liveView st1.cs := by
        rw [hrec _ _ s1 (by rw [hok]; rfl)]
        exact liveView_setBeforeAt st1.cs _ _
      refine andThen_preserves (fun t => liveView t.cs = liveView st1.cs) _ _ s ?_ ?_ hs
      · intro t ht
        rw [hrec _ _ t ht]
        exact h1
      · intro t1 hok2 t ht
        rw [finishStep_cs t1 ci t ht, hrec _ _ t1 (by rw [hok2]; rfl)]
        exact h1
  · refine andThen_preserves (fun s => liveView s.cs = liveView st1.cs) _ _ st' ?_ ?_ h
    · intro s hs
      exact hrec _ _ s hs
    · intro s1 hok s hs
      have h1 : liveView s1.cs = liveView st1.cs := hrec _ _ s1 (by rw [hok]; rfl)
      refine andThen_preserves (fun t => liveView t.cs = liveView st1.cs) _ _ s ?_ ?_ hs
      · intro t ht
        rw [hrec _ _ t ht]
        exact h1
      · intro t1 hok2 t ht
        rw [finishStep_cs t1 ci t ht, hrec _ _ t1 (by rw [hok2]; rfl)]
        exact h1
  · rw [finishStep_cs st1 ci st' h]
  · rw [finishStep_cs st1 ci st' h]

theorem sortCallbackF_liveView (names : List String) :
    ∀ (fuel : Nat) (st : SortState) (ci : Nat) (st' : SortState),
      resState (sortCallbackF names fuel st ci) = some st' →
      liveView st'.cs = liveView st.cs := by
  intro fuel
  induction fuel with
  | zero =>
    intro st ci st' h
    simp [sortCallbackF, resState] at h
  | succ n ih =>
    intro st ci st' h
    rw [sortCallbackF] at h
    refine andThen_preserves (fun s => liveView s.cs = liveView st.cs) _ _ st' ?_ ?_ h
    · intro s hs
      exact beforeStep_liveView names st ci s hs
    · intro s1 hok s hs
      have hb1 : liveView s1.cs = liveView st.cs :=
        beforeStep_liveView names st ci s1 (by rw [hok]; rfl)
      rw [afterPhase_liveView names (sortCallbackF names n)
        (fun a j b hb => ih a j b hb) s1 ci s hs]
      exact hb1

theorem sortLoopF_liveView (names : List String) (fuel : Nat) :
    ∀ (idxs : List Nat) (st st' : SortState),
      resState (sortLoopF names fuel st idxs) = some st' →
      liveView st'.cs = liveView st.cs := by
  intro idxs
  induction idxs with
  | nil =>
    intro st st' h
    simp only [sortLoopF, resState, Option.some.injEq] at h
    rw [h]
  | cons i rest ih =>
    intro st st' h
    simp only [sortLoopF] at h
    refine andThen_preserves (fun s => liveView s.cs = liveView st.cs) _ _ st' ?_ ?_ h
    · intro s hs
      exact sortCallbackF_liveView names fuel st i s hs
    · intro s1 hok s hs
      rw [ih s1 s hs]
      exact sortCallbackF_liveView names fuel st i s1 (by rw [hok]; rfl)

theorem sortCallbacksF_liveView (fuel : Nat) (cs : List Callback)
    (cs' : List Callback) (h : outcomeCs (sortCallbacksF fuel cs) = some cs') :
    liveView cs' = liveView cs := by
  simp only [sortCallbacksF] at h
  cases hres : sortLoopF (cs.map fun c => c.name) fuel
      { cs := cs, sorted := [] } (List.range cs.length) with
  | ok st =>
    rw [hres] at h
    simp only [outcomeCs, Option.some.injEq] at h
    subst h
    exact sortLoopF_liveView _ fuel _ _ st (by rw [hres]; rfl)
  | conflict a b st =>
    rw [hres] at h
    simp only [outcomeCs, Option.some.injEq] at h
    subst h
    exact sortLoopF_liveView _ fuel _ _ st (by rw [hres]; rfl)
  | outOfFuel =>
    rw [hres] at h
    simp [outcomeCs] at h

theorem getCb_congr : ∀ (cs1 cs2 : List Callback), liveView cs1 = liveView cs2 →
    ∀ nm, getCb cs1 nm = getCb cs2 nm := by
  intro cs1
  induction cs1 with
  | nil =>
    intro cs2 h nm
    cases cs2 with
    | nil => rfl
    | cons d rest2 => simp [liveView] at h
  | cons c rest ih =>
    intro cs2 h nm
    cases cs2 with
    | nil => simp [liveView] at h
    | cons d rest2 =>
      simp only [liveView, List.map_cons, List.cons.injEq, Prod.mk.injEq] at h
      obtain ⟨⟨hn, hr, hh⟩, htail⟩ := h
      simp only [getCb]
      rw [ih rest2 htail nm, hn, hr, hh]

theorem getCb_append_tomb (cbs : List Callback) (t : Callback)
    (ht : t.remove = true) (nm : String) :
    getCb (cbs ++ [t]) nm = getCb cbs nm := by
  induction cbs with
  | nil => simp [getCb, ht]
  | cons c rest ih =>
    simp only [List.cons_append, getCb, List.append_eq]
    rw [ih]

/-! ## The two-callback cycle: the recursion reaches a fixpoint state and
then calls itself forever.  Each step lemma is a definitional unfolding
of one `sortCallback` call from the fixpoint state. -/

theorem cyc_stepA (k : Nat) : sortCallbackF cycNames (k + 1) cycStar 0 =
    andThen (sortCallbackF cycNames k cycStar 1) fun st3 =>
      andThen (sortCallbackF cycNames k st3 0) fun st4 => finishStep st4 0 := rfl

theorem cyc_stepB (k : Nat) : sortCallbackF cycNames (k + 1) cycStar 1 =
    andThen (sortCallbackF cycNames k cycStar 0) fun st3 =>
      andThen (sortCallbackF cycNames k st3 1) fun st4 => finishStep st4 1 := rfl

theorem cyc_stuck (k : Nat) : sortCallbackF cycNames k cycStar 0 = .outOfFuel ∧
    sortCallbackF cycNames k cycStar 1 = .outOfFuel := by
  induction k with
  | zero => exact ⟨rfl, rfl⟩
  | succ n ih =>
    refine ⟨?_, ?_⟩
    · rw [cyc_stepA n, ih.2]
      rfl
    · rw [cyc_stepB n, ih.1]
      rfl

theorem c1_stepB1 (k : Nat) : sortCallbackF cycNames (k + 1) c1st1 1 =
    andThen (sortCallbackF cycNames k cycStar 0) fun st3 =>
      andThen (sortCallbackF cycNames k st3 1) fun st4 => finishStep st4 1 := rfl

theorem c1_callB (k : Nat) : sortCallbackF cycNames k c1st1 1 = .outOfFuel := by
  cases k with
  | zero => rfl
  | succ n =>
    rw [c1_stepB1 n, (cyc_stuck n).1]
    rfl

theorem c1_stepTop (f : Nat) : sortCallbackF cycNames (f + 1) c1st0 0 =
    andThen (sortCallbackF cycNames f c1st1 1) fun st3 =>
      andThen (sortCallbackF cycNames f st3 0) fun st4 => finishStep st4 0 := rfl

theorem c1_call0 (f : Nat) : sortCallbackF cycNames f c1st0 0 = .outOfFuel := by
  cases f with
  | zero => rfl
  | succ n =>
    rw [c1_stepTop n, c1_callB n]
    rfl

theorem c9_stepTop (f : Nat) : sortCallbackF cycNames (f + 1) c9st0 0 =
    andThen (sortCallbackF cycNames f cycStar 1) fun st3 =>
      andThen (sortCallbackF cycNames f st3 0) fun st4 => finishStep st4 0 := rfl

theorem c9_call0 (f : Nat) : sortCallbackF cycNames f c9st0 0 = .outOfFuel := by
  cases f with
  | zero => rfl
  | succ n =>
    rw [c9_stepTop n, (cyc_stuck n).2]
    rfl

theorem c9_sort (fuel : Nat) : sortCallbacksF fuel c9cs = .outOfFuel := by
  have hl : sortLoopF cycNames fuel c9st0 [0, 1] = .outOfFuel := by
    have he : sortLoopF cycNames fuel c9st0 [0, 1] =
        andThen (sortCallbackF cycNames fuel c9st0 0) (fun st' =>
          sortLoopF cycNames fuel st' [1]) := rfl
    rw [he, c9_call0 fuel]
    rfl
  have he2 : sortCallbacksF fuel c9cs =
      (match sortLoopF cycNames fuel c9st0 [0, 1] with
       | .ok st => .ok (buildFns cycNames st.cs st.sorted) st.cs
       | .conflict a b st => .conflict a b st.cs
       | .outOfFuel => .outOfFuel) := rfl
  rw [he2, hl]

/-! ## The claims -/

/-- Claim C1 (refuted, code bug): the claim states that `sortCallbacks`
terminates on every input and reports a conflict error on genuine cycles.
On the mutual-`after` cycle `c1cs` (`a` after `b`, `b` after `a`) the
recursive resolution calls itself forever: for every fuel bound the
embedded run exhausts its fuel, so the Go recursion never returns. -/
theorem C1_sortCallbacks_diverges_on_after_cycle (fuel : Nat) :
    sortCallbacksF fuel c1cs = .outOfFuel := by
  have hl : sortLoopF cycNames fuel c1st0 [0, 1] = .outOfFuel := by
    have he : sortLoopF cycNames fuel c1st0 [0, 1] =
        andThen (sortCallbackF cycNames fuel c1st0 0) (fun st' =>
          sortLoopF cycNames fuel st' [1]) := rfl
    rw [he, c1_call0 fuel]
    rfl
  have he2 : sortCallbacksF fuel c1cs =
      (match sortLoopF cycNames fuel c1st0 [0, 1] with
       | .ok st => .ok (buildFns cycNames st.cs st.sorted) st.cs
       | .conflict a b st => .conflict a b st.cs
       | .outOfFuel => .outOfFuel) := rfl
  rw [he2, hl]

/-- Claim C2 (refuted, code bug): the claim states that a declaration
whose `match` predicate evaluates to `false` is excluded from the set
handed to the resolver, so its handler is absent from the compiled list.
In the source the filtered list is computed (lines 136–141) but
`sortCallbacks(p.callbacks)` is invoked on the unfiltered slice
(line 143): for `c2p`, whose only declaration fails its `match`
predicate, the filtered set is empty yet the compiled list still carries
the handler.  The spec-modelled `compile` produces the empty list. -/
theorem C2_match_filter_discarded :
    c2p.callbacks.filter matchKeeps = [] ∧
    compileF 10 c2p = .done { callbacks := c2p.callbacks, fns := [1] } none ∧
    compileSpecModel 10 c2p = .done { callbacks := c2p.callbacks, fns := [] } none := by
  decide

/-- Claim C3 counterexample: after `Register("a", h1)` compiles
`fns = [1]`, the conflicting registration `Before("a").After("a").
Register("b", h2)` makes the resolver fail — and the previously compiled
list is NOT retained: the processor's `fns` becomes `[]`, not `[1]`. -/
theorem C3_counterexample :
    registerOp 10 c3p0 "a" 1 = .done c3p1 none ∧ c3p1.fns = [1] ∧
    appendCompile 10 c3p1 c3cb = .done { callbacks := c3cs, fns := [] } (some ("b", "a")) ∧
    ([] : List Nat) ≠ c3p1.fns := by
  decide

/-- Claim C3 amended: when the resolver fails with a conflict during
`compile`, the error is returned to the caller of the mutating operation
(and logged), but the processor's compiled handler list is not retained:
the multiple assignment `p.fns, err = sortCallbacks(...)` overwrites it
with the resolver's empty result. -/
theorem C3_fns_cleared_on_conflict (fuel : Nat) (p : Processor) (a b : String)
    (cs' : List Callback)
    (h : sortCallbacksF fuel p.callbacks = .conflict a b cs') :
    compileF fuel p = .done { callbacks := cs', fns := [] } (some (a, b)) := by
  simp only [compileF]
  rw [h]

/-- Claim C3 witness: the amended theorem applied to the concrete
conflicting processor state. -/
theorem C3_fns_cleared_on_conflict_witness :
    compileF 10 { callbacks := c3cs, fns := [1] } =
      .done { callbacks := c3cs, fns := [] } (some ("b", "a")) :=
  C3_fns_cleared_on_conflict 10 { callbacks := c3cs, fns := [1] } "b" "a" c3cs (by decide)

/-- Claim C4 (refuted, code bug): the claim states that whenever
`sortCallbacks` succeeds, every declared `before`/`after` constraint is
satisfied by the output order.  On `c4cs` the sort succeeds with handler
order `[1, 2, 3]`, yet declaration `b` (handler 2) declared
`after = "c"` (handler 3) and nevertheless precedes it: sorting `a`
(declared `before = "b"`) overwrote `b.after` from `"c"` to `"a"`,
silently discarding the declared constraint. -/
theorem C4_success_violates_declared_after :
    outcomeFns (sortCallbacksF 10 c4cs) = some [1, 2, 3] ∧
    (csGet c4cs 1).after = "c" ∧ (csGet c4cs 1).handler = 2 ∧
    (csGet c4cs 2).name = "c" ∧ (csGet c4cs 2).handler = 3 ∧
    [1, 2, 3].indexOf 2 < [1, 2, 3].indexOf 3 := by
  decide

/-- Claim C5 counterexample: a parse error that is NOT of the
unsupported-data-type class, with a table name already known
(`"users"`), is still added to the call's error accumulator — the claim
said such failures are non-fatal (not added) whenever a table name is
known. -/
theorem C5_counterexample :
    (Execute [] c5db).addedErrors = [{ errId := 7, unsupported := false }] ∧
    c5stmt.table ≠ "" ∧
    ({ errId := 7, unsupported := false } : ParseErr).unsupported = false := by
  refine ⟨rfl, by decide, rfl⟩

/-- Claim C5 amended: during `Execute`, a schema-parse error is surfaced
to the call's error accumulator exactly unless it is an
unsupported-data-type error AND a table name is already resolved; in
particular every other class of parse failure is surfaced regardless of
the table. -/
theorem C5_parse_error_surfacing (db : ExecDB) (stmt : ExecStmt) (m : Nat) (e : ParseErr)
    (hdb : db.stmt = some stmt)
    (hm : (if stmt.model = none then stmt.dest else stmt.model) = some m)
    (hp : stmt.parseRes m = some e) :
    (Execute [] db).addedErrors =
      db.addedErrors ++ (if e.unsupported = true ∧ stmt.table ≠ "" then [] else [e]) := by
  unfold Execute applyFns executePrepare executeFinish
  rw [hdb]
  simp only [List.foldl]
  by_cases hmo : stmt.model = none
  · simp only [hmo, if_true, reduceIte]
    rw [if_pos hmo] at hm
    simp only [hm, hp]
    by_cases hu : e.unsupported = false ∨ stmt.table = ""
    · rw [if_pos hu]
      have hni : ¬(e.unsupported = true ∧ stmt.table ≠ "") := by
        rcases hu with h | h
        · simp [h]
        · simp [h]
      rw [if_neg hni]
    · rw [if_neg hu]
      push_neg at hu
      have hyi : e.unsupported = true ∧ stmt.table ≠ "" := by
        constructor
        · cases hue : e.unsupported
          · exact absurd hue hu.1
          · rfl
        · exact hu.2
      rw [if_pos hyi]
      simp
  · simp only [hmo, if_false, reduceIte]
    rw [if_neg hmo] at hm
    simp only [hm, hp]
    by_cases hu : e.unsupported = false ∨ stmt.table = ""
    · rw [if_pos hu]
      have hni : ¬(e.unsupported = true ∧ stmt.table ≠ "") := by
        rcases hu with h | h
        · simp [h]
        · simp [h]
      rw [if_neg hni]
    · rw [if_neg hu]
      push_neg at hu
      have hyi : e.unsupported = true ∧ stmt.table ≠ "" := by
        constructor
        · cases hue : e.unsupported
          · exact absurd hue hu.1
          · rfl
        · exact hu.2
      rw [if_pos hyi]
      simp

/-- Claim C5 witness: the amended theorem applied to the one suppressed
case, an unsupported-data-type error with a known table name. -/
theorem C5_parse_error_surfacing_witness :
    (Execute [] c5wdb).addedErrors = c5wdb.addedErrors ++ [] :=
  C5_parse_error_surfacing c5wdb c5wstmt 0 { errId := 3, unsupported := true }
    rfl rfl rfl

/-- Claim C6 counterexample: registering name `a` twice (handlers 1 then
2) without the replace flag returns no error and logs a duplicate
warning, but the compiled handler is `[2]` — the NEWER registration
wins, contradicting the claim that the earlier handler is retained. -/
theorem C6_counterexample :
    registerOp 10 c6p1 "a" 2 = .done c6p2 none ∧
    c6p2.fns = [2] ∧ c6p2.fns ≠ [1] ∧
    duplicateWarnings c6p2.callbacks = ["a"] := by
  decide

/-- Claim C6 amended: registering the same name twice on a processor
(without replace) returns no error and logs one duplicate warning, and
the NEWER registration wins: the compiled output carries the second
handler, because the final emission loop resolves each sorted name by
its last occurrence. -/
theorem C6_newest_duplicate_wins (fuel : Nat) (n : String) (h1 h2 : Nat) :
    registerOp (fuel + 1) { callbacks := [], fns := [] } n h1 =
      .done { callbacks := [mkCallback n h1], fns := [h1] } none ∧
    registerOp (fuel + 1) { callbacks := [mkCallback n h1], fns := [h1] } n h2 =
      .done { callbacks := [mkCallback n h1, mkCallback n h2], fns := [h2] } none ∧
    duplicateWarnings [mkCallback n h1, mkCallback n h2] = [n] := by
  refine ⟨?_, ?_, ?_⟩ <;>
    simp [registerOp, appendCompile, compileF, sortCallbacksF, sortLoopF,
      sortCallbackF, andThen, afterPhase, beforeStep, finishStep, getRIndex,
      buildFns, csGet, mkCallback, dummyCallback, duplicateWarnings, dupWarnGo,
      matchKeeps, List.range, List.range.loop]

/-- Claim C7 counterexample: declaration `y` carries the explicit
constraint `after = "z"`, yet sorting `x` (declared `before = "y"`)
overwrites `y.after` to `"x"` — the run succeeds and the final slice
records the overwritten constraint, contradicting the claim that an
existing `after` is never overwritten by the backward-edge rewrite. -/
theorem C7_counterexample :
    (csGet c7cs 1).after = "z" ∧
    sortCallbacksF 10 c7cs = .ok [4, 5, 6] c7final ∧
    (csGet c7final 1).after = "x" ∧ ("x" : String) ≠ "z" := by
  decide

/-- Claim C7 amended: when a declaration constrains `before = X`, `X` is
not yet placed in `sorted` and `X` exists among the registered names,
the resolver sets `X`'s `after` to the current declaration's name
UNCONDITIONALLY — any existing explicit `after` constraint on `X` is
overwritten (there is no emptiness guard on this rewrite, unlike the
symmetric rewrite in the `after` branch). -/
theorem C7_before_rewrite_unconditional (names : List String) (st : SortState) (ci : Nat)
    (hb : (csGet st.cs (Int.ofNat ci)).before ≠ "")
    (hs : getRIndex st.sorted (csGet st.cs (Int.ofNat ci)).before = -1)
    (hn : getRIndex names (csGet st.cs (Int.ofNat ci)).before ≠ -1) :
    beforeStep names st ci = .ok (SortState.mk
      (setAfterAt st.cs (getRIndex names (csGet st.cs (Int.ofNat ci)).before).toNat
        (csGet st.cs (Int.ofNat ci)).name)
      st.sorted) := by
  simp only [beforeStep]
  rw [if_pos hb, hs]
  rw [if_neg (by simp), if_pos hn]

/-- Claim C7 witness: the amended theorem applied to `c7cs`, whose `y`
holds an explicit `after = "z"` that the rewrite replaces with `"x"`. -/
theorem C7_before_rewrite_unconditional_witness :
    beforeStep c7names c7st0 0 = .ok (SortState.mk (setAfterAt c7cs 1 "x") []) :=
  C7_before_rewrite_unconditional c7names c7st0 0 (by decide) (by decide) (by decide)

/-- Claim C8 counterexample: after `Register("a", h1)` and `Remove("a")`,
the handler is gone from the compiled list, but `Get("a")` still returns
`h1` — the tombstone is skipped and the earlier declaration was never
marked dead, contradicting the claim that `Get` returns no handler. -/
theorem C8_counterexample :
    removeOp 10 c8p1 "a" = .done c8p2 none ∧
    Get c8p2 "a" = some 1 ∧ (some 1 : Option Nat) ≠ none := by
  decide

/-- Claim C8 amended: `Remove(name)` only appends a tombstone and
recompiles; it never marks earlier same-named declarations dead, and it
leaves `Get` entirely unchanged for every name — in particular
`Get(name)` still returns the most recent earlier live registration's
handler instead of nothing. -/
theorem C8_remove_leaves_get_unchanged (fuel : Nat) (p : Processor) (name : String)
    (p' : Processor) (err : Option (String × String))
    (h : removeOp fuel p name = .done p' err) (nm : String) :
    Get p' nm = Get p nm := by
  simp only [removeOp, appendCompile, compileF] at h
  cases hs : sortCallbacksF fuel (p.callbacks ++ [removeTomb name]) with
  | ok fns cs' =>
    rw [hs] at h
    simp only [CompileResult.done.injEq] at h
    obtain ⟨hp, _⟩ := h
    subst hp
    unfold Get
    rw [getCb_congr cs' (p.callbacks ++ [removeTomb name])
      (sortCallbacksF_liveView fuel _ cs' (by rw [hs]; rfl)) nm]
    exact getCb_append_tomb p.callbacks (removeTomb name) rfl nm
  | conflict a b cs' =>
    rw [hs] at h
    simp only [CompileResult.done.injEq] at h
    obtain ⟨hp, _⟩ := h
    subst hp
    unfold Get
    rw [getCb_congr cs' (p.callbacks ++ [removeTomb name])
      (sortCallbacksF_liveView fuel _ cs' (by rw [hs]; rfl)) nm]
    exact getCb_append_tomb p.callbacks (removeTomb name) rfl nm
  | outOfFuel =>
    rw [hs] at h
    simp at h

/-- Claim C8 witness: the amended theorem applied to the concrete
register-then-remove scenario. -/
theorem C8_remove_leaves_get_unchanged_witness :
    Get c8p2 "a" = Get c8p1 "a" :=
  C8_remove_leaves_get_unchanged 10 c8p1 "a" c8p2 none (by decide) "a"

/-- Claim C9 (refuted, code bug): the claim states that recompiling any
fixed declaration sequence twice yields the same handler order.  On the
cyclic sequence `c9cs` (`a` declares both `before = "b"` and
`after = "b"`) the very first `compile` never terminates — for every
fuel bound the embedded run exhausts its fuel — so compilation produces
no handler order even once, let alone the same one twice. -/
theorem C9_compile_diverges_on_cycle (fuel : Nat) :
    compileF fuel c9p = .outOfFuel := by
  have he : compileF fuel c9p =
      (match sortCallbacksF fuel c9cs with
       | .ok fns cs' => .done { callbacks := cs', fns := fns } none
       | .conflict a b cs' => .done { callbacks := cs', fns := [] } (some (a, b))
       | .outOfFuel => .outOfFuel) := rfl
  rw [he, c9_sort fuel]

/-- Claim C10 (confirmed): when the call context's `Statement` is nil
(at entry, and still nil after the chain, since handlers share the
context), `Execute` is exactly the in-order handler fold: no model
defaulting or schema parsing happens beforehand, and neither the
error/rows-affected copy nor the trace emission happens afterward. -/
theorem C10_nil_statement_runs_only_handlers (fns : List (ExecDB → ExecDB))
    (db : ExecDB) (h1 : db.stmt = none) (h2 : (applyFns fns db).stmt = none) :
    Execute fns db = applyFns fns db := by
  unfold Execute
  have hprep : executePrepare db = db := by
    unfold executePrepare
    rw [h1]
  rw [hprep]
  unfold executeFinish
  rw [h2]

/-- Claim C10 witness: the theorem applied to a nil-statement context
with two concrete handlers. -/
theorem C10_nil_statement_runs_only_handlers_witness :
    c10db.stmt = none ∧ (applyFns [c10f, c10f] c10db).stmt = none ∧
    Execute [c10f, c10f] c10db = applyFns [c10f, c10f] c10db :=
  ⟨rfl, rfl, C10_nil_statement_runs_only_handlers [c10f, c10f] c10db rfl rfl⟩

end Gorm
